import Mathlib

/-!
# Verification of the eBay price-checker scraper

Shallow embedding of `src/scraper.py` (class `EbayScraper`) and proofs of the
specification claims. Python strings are modelled as `List Char`; browser/DOM
interactions are modelled as explicit inputs describing what each locator
resolved to; `dict.get`, `urllib.parse` query handling and the regular
expression of `clean_price` are modelled from their documented behaviour on
the inputs the scraper feeds them.
-/

set_option autoImplicit false

namespace EbayPC

/-! ## Character classes of the price regex `[\$£€¥]?\s*[\d,]+\.?\d{0,2}`
and of Python's `str.strip` / `str.lower`. -/

/-- Whitespace as recognised by Python's `str.strip` and `\s` (ASCII part). -/
def isSpace (c : Char) : Bool :=
  c == ' ' || c == '\t' || c == '\n' || c == '\r' || c == '\u000b' || c == '\u000c'

/-- `\d` of the price pattern (decimal digits). -/
def isDigitCh (c : Char) : Bool :=
  '0' ≤ c && c ≤ '9'

/-- The optional currency-symbol class `[\$£€¥]` of the price pattern. -/
def isPriceSym (c : Char) : Bool :=
  c == '$' || c == '£' || c == '€' || c == '¥'

/-- The repeated class `[\d,]` of the price pattern. -/
def isDigitOrComma (c : Char) : Bool :=
  isDigitCh c || c == ','

/-- Python `str.strip()`: drop leading and trailing whitespace. -/
def pyStrip (s : List Char) : List Char :=
  ((s.dropWhile isSpace).reverse.dropWhile isSpace).reverse

/-! ## PriceNormalizer — `EbayScraper.clean_price` (src/scraper.py:600-629)

`re.search(r'[\$£€¥]?\s*[\d,]+\.?\d{0,2}', text)` is embedded as a
deterministic matcher: the pattern needs no backtracking (each greedy piece
is followed only by pieces that cannot consume what it gave up), so the
leftmost match is: at the first position where it succeeds, an optional
symbol, then maximal whitespace, then maximal nonempty `[\d,]+`, then an
optional `.` followed by at most two digits. -/

/-- Maximal `\s*` at the head of `s`. -/
def coreWS (s : List Char) : List Char := s.takeWhile isSpace

/-- Maximal `[\d,]+` after the whitespace. -/
def coreDC (s : List Char) : List Char := (s.dropWhile isSpace).takeWhile isDigitOrComma

/-- What is left of `s` after `\s*[\d,]+`. -/
def coreRest (s : List Char) : List Char := (s.dropWhile isSpace).dropWhile isDigitOrComma

/-- `\d{0,2}`: greedily up to two digits at the head of `s3`. -/
def fracOf (s3 : List Char) : List Char := (s3.takeWhile isDigitCh).take 2

/-- The part of the pattern after the optional currency symbol:
`\s*[\d,]+\.?\d{0,2}` matched greedily at the head of `s`. -/
def matchCore (s : List Char) : Option (List Char) :=
  if coreDC s = [] then none
  else
    match coreRest s with
    | '.' :: s3 => some (coreWS s ++ coreDC s ++ '.' :: fracOf s3)
    | _ => some (coreWS s ++ coreDC s)

/-- The whole pattern matched at the head of `s`: greedy optional symbol
first, falling back to no symbol. -/
def matchAt (s : List Char) : Option (List Char) :=
  match s with
  | c :: rest =>
    if isPriceSym c then
      match matchCore rest with
      | some m => some (c :: m)
      | none => matchCore s
    else matchCore s
  | [] => matchCore []

/-- `re.search`: the match at the leftmost position where one exists. -/
def reSearch : List Char → Option (List Char)
  | [] => none
  | c :: rest =>
    match matchAt (c :: rest) with
    | some m => some m
    | none => reSearch rest

/-- `price.startswith(('$', '£', '€', '¥'))`. -/
def startsWithPriceSym (s : List Char) : Bool :=
  match s with
  | c :: _ => isPriceSym c
  | [] => false

/-- `EbayScraper.clean_price` (src/scraper.py:600-629): falsy input is
rejected, the input is stripped, the price pattern is searched for, the
match is stripped, and a `$` is prefixed when the match does not already
start with a currency symbol. -/
def clean_price (price_text : List Char) : Option (List Char) :=
  if price_text.isEmpty then none
  else
    match reSearch (pyStrip price_text) with
    | some m =>
      if startsWithPriceSym (pyStrip m) then some (pyStrip m)
      else some ('$' :: pyStrip m)
    | none => none

example : clean_price ['£', '1', ',', '2', '3', '4', '.', '5', '6'] =
    some ['£', '1', ',', '2', '3', '4', '.', '5', '6'] := by decide

example : clean_price ['1', '2', '.', '9', '9'] = some ['$', '1', '2', '.', '9', '9'] := by
  decide

example : clean_price [','] = some ['$', ','] := by decide

example : clean_price ['a', 'b', 'c'] = none := by decide

example : clean_price [' ', '$', ' ', '4', '2'] = some ['$', ' ', '4', '2'] := by decide

example : clean_price ['1', '2', '.', '3', '4', '5'] = some ['$', '1', '2', '.', '3', '4'] := by
  decide

/-! ## Character-class facts -/

theorem not_space_of_digitOrComma {c : Char} (h : isDigitOrComma c = true) :
    isSpace c = false := by
  rw [Bool.eq_false_iff]
  intro hsp
  simp only [isSpace, Bool.or_eq_true, beq_iff_eq] at hsp
  simp only [isDigitOrComma, isDigitCh, Bool.or_eq_true, Bool.and_eq_true,
    decide_eq_true_eq, beq_iff_eq] at h
  rcases h with ⟨h1, h2⟩ | rfl
  · rcases hsp with ((((rfl | rfl) | rfl) | rfl) | rfl) | rfl <;>
      exact absurd h1 (by decide)
  · rcases hsp with ((((h | h) | h) | h) | h) | h <;> exact absurd h (by decide)

theorem not_space_of_sym {c : Char} (h : isPriceSym c = true) : isSpace c = false := by
  simp only [isPriceSym, Bool.or_eq_true, beq_iff_eq] at h
  rcases h with ((rfl | rfl) | rfl) | rfl <;> decide

theorem not_sym_of_digitOrComma {c : Char} (h : isDigitOrComma c = true) :
    isPriceSym c = false := by
  rw [Bool.eq_false_iff]
  intro hsym
  simp only [isPriceSym, Bool.or_eq_true, beq_iff_eq] at hsym
  simp only [isDigitOrComma, isDigitCh, Bool.or_eq_true, Bool.and_eq_true,
    decide_eq_true_eq, beq_iff_eq] at h
  rcases h with ⟨h1, h2⟩ | rfl
  · rcases hsym with ((rfl | rfl) | rfl) | rfl <;>
      first
      | exact absurd h1 (by decide)
      | exact absurd h2 (by decide)
  · rcases hsym with ((h | h) | h) | h <;> exact absurd h (by decide)

theorem digitOrComma_of_digit {c : Char} (h : isDigitCh c = true) :
    isDigitOrComma c = true := by
  simp [isDigitOrComma, h]

/-! ## List helpers -/

theorem takeWhile_nil_of_all_false {p : Char → Bool} {l : List Char}
    (h : ∀ c ∈ l, p c = false) : l.takeWhile p = [] := by
  cases l with
  | nil => rfl
  | cons c rest => rw [List.takeWhile_cons, if_neg (by simp [h c (by simp)])]

theorem dropWhile_eq_self_of_head {p : Char → Bool} {l : List Char}
    (h : ∀ c, l.head? = some c → p c = false) : l.dropWhile p = l := by
  cases l with
  | nil => rfl
  | cons c rest => rw [List.dropWhile_cons, if_neg (by simp [h c rfl])]

theorem takeWhile_append_all {p : Char → Bool} {ws r : List Char}
    (h : ∀ c ∈ ws, p c = true) : (ws ++ r).takeWhile p = ws ++ r.takeWhile p := by
  rw [List.takeWhile_append, if_pos (by rw [List.takeWhile_eq_self_iff.mpr h])]

theorem dropWhile_append_all {p : Char → Bool} {ws r : List Char}
    (h : ∀ c ∈ ws, p c = true) : (ws ++ r).dropWhile p = r.dropWhile p := by
  rw [List.dropWhile_append, if_pos (by rw [List.dropWhile_eq_nil_iff.mpr h]; rfl)]

theorem mem_pyStrip {t : List Char} {c : Char} (h : c ∈ pyStrip t) : c ∈ t := by
  unfold pyStrip at h
  rw [List.mem_reverse] at h
  have h2 := (List.dropWhile_sublist isSpace).subset h
  rw [List.mem_reverse] at h2
  exact (List.dropWhile_sublist isSpace).subset h2

theorem pyStrip_eq_self {l : List Char}
    (h1 : ∀ c, l.head? = some c → isSpace c = false)
    (h2 : ∀ c, l.getLast? = some c → isSpace c = false) :
    pyStrip l = l := by
  unfold pyStrip
  rw [dropWhile_eq_self_of_head h1]
  rw [dropWhile_eq_self_of_head
    (fun c hc => h2 c (by rwa [List.head?_reverse] at hc))]
  exact List.reverse_reverse l

theorem getLast?_append_right_mem {l r : List Char} (hr : r ≠ []) {c : Char}
    (h : (l ++ r).getLast? = some c) : c ∈ r := by
  rw [List.getLast?_append] at h
  obtain ⟨d, hd⟩ := Option.isSome_iff_exists.mp (List.getLast?_isSome.mpr hr)
  rw [hd] at h
  simp only [Option.or] at h
  cases h
  exact List.mem_of_mem_getLast? hd

/-! ## Shape of a regex match, and the set of possible `clean_price` outputs -/

/-- The optional `\.?\d{0,2}` suffix of a match. -/
def TailShape (t : List Char) : Prop :=
  t = [] ∨ ∃ frac, t = '.' :: frac ∧ frac.length ≤ 2 ∧ ∀ c ∈ frac, isDigitCh c = true

/-- What `matchCore` can return: whitespace, then a nonempty run of digits
and commas, then an optional fraction. -/
def CoreShape (m : List Char) : Prop :=
  ∃ ws dc tail, m = ws ++ (dc ++ tail) ∧ (∀ x ∈ ws, isSpace x = true) ∧
    dc ≠ [] ∧ (∀ x ∈ dc, isDigitOrComma x = true) ∧ TailShape tail

/-- What a full match can be: a core match, optionally preceded by one
currency symbol. -/
def AtShape (m : List Char) : Prop :=
  CoreShape m ∨ ∃ c m', m = c :: m' ∧ isPriceSym c = true ∧ CoreShape m'

/-- Every non-`none` output of `clean_price`: a currency symbol, then
whitespace, then a nonempty digit/comma run, then an optional fraction. -/
def GoodPrice (p : List Char) : Prop :=
  ∃ c ws dc tail, p = c :: (ws ++ (dc ++ tail)) ∧ isPriceSym c = true ∧
    (∀ x ∈ ws, isSpace x = true) ∧ dc ≠ [] ∧
    (∀ x ∈ dc, isDigitOrComma x = true) ∧ TailShape tail

theorem matchCore_shape {s m : List Char} (h : matchCore s = some m) : CoreShape m := by
  unfold matchCore at h
  by_cases hdc : coreDC s = []
  · rw [if_pos hdc] at h; exact absurd h (by simp)
  · rw [if_neg hdc] at h
    have hws : ∀ x ∈ coreWS s, isSpace x = true := fun x hx => List.mem_takeWhile_imp hx
    have hdcP : ∀ x ∈ coreDC s, isDigitOrComma x = true :=
      fun x hx => List.mem_takeWhile_imp hx
    split at h
    · rename_i s3 heq
      injection h with h
      subst h
      refine ⟨coreWS s, coreDC s, '.' :: fracOf s3, List.append_assoc _ _ _,
        hws, hdc, hdcP, ?_⟩
      refine Or.inr ⟨fracOf s3, rfl, List.length_take_le _ _, ?_⟩
      intro c hc
      exact List.mem_takeWhile_imp ((List.take_sublist _ _).subset hc)
    · injection h with h
      subst h
      exact ⟨coreWS s, coreDC s, [], by rw [List.append_nil], hws, hdc, hdcP, Or.inl rfl⟩

theorem matchAt_shape {s m : List Char} (h : matchAt s = some m) : AtShape m := by
  cases s with
  | nil => exact Or.inl (matchCore_shape h)
  | cons c rest =>
    simp only [matchAt] at h
    by_cases hc : isPriceSym c = true
    · rw [if_pos hc] at h
      cases hmc : matchCore rest with
      | some m' =>
        simp only [hmc, Option.some.injEq] at h
        subst h
        exact Or.inr ⟨c, m', rfl, hc, matchCore_shape hmc⟩
      | none =>
        simp only [hmc] at h
        exact Or.inl (matchCore_shape h)
    · rw [if_neg hc] at h
      exact Or.inl (matchCore_shape h)

theorem reSearch_shape {s m : List Char} (h : reSearch s = some m) : AtShape m := by
  induction s with
  | nil => exact absurd h (by simp [reSearch])
  | cons c rest ih =>
    rw [reSearch] at h
    cases hma : matchAt (c :: rest) with
    | some m' =>
      simp only [hma, Option.some.injEq] at h
      subst h
      exact matchAt_shape hma
    | none =>
      simp only [hma] at h
      exact ih h

theorem mem_dcTail_not_space {dc tail : List Char}
    (hdcP : ∀ x ∈ dc, isDigitOrComma x = true) (ht : TailShape tail) :
    ∀ x ∈ dc ++ tail, isSpace x = false := by
  intro x hx
  rcases List.mem_append.mp hx with hx | hx
  · exact not_space_of_digitOrComma (hdcP x hx)
  · rcases ht with rfl | ⟨frac, rfl, _, hfr⟩
    · cases hx
    · rcases List.mem_cons.mp hx with rfl | hx
      · decide
      · exact not_space_of_digitOrComma (digitOrComma_of_digit (hfr x hx))

theorem pyStrip_core {ws dc tail : List Char}
    (hws : ∀ x ∈ ws, isSpace x = true) (_hdc : dc ≠ [])
    (hdcP : ∀ x ∈ dc, isDigitOrComma x = true) (ht : TailShape tail) :
    pyStrip (ws ++ (dc ++ tail)) = dc ++ tail := by
  have hnospace : ∀ x ∈ dc ++ tail, isSpace x = false := mem_dcTail_not_space hdcP ht
  have h1 : (dc ++ tail).dropWhile isSpace = dc ++ tail :=
    dropWhile_eq_self_of_head fun c hc => hnospace c (List.mem_of_mem_head? hc)
  unfold pyStrip
  rw [dropWhile_append_all hws, h1]
  rw [dropWhile_eq_self_of_head, List.reverse_reverse]
  intro c hc
  rw [List.head?_reverse] at hc
  exact hnospace c (List.mem_of_mem_getLast? hc)

theorem pyStrip_sym {c : Char} {ws dc tail : List Char}
    (hc : isPriceSym c = true) (hdc : dc ≠ [])
    (hdcP : ∀ x ∈ dc, isDigitOrComma x = true) (ht : TailShape tail) :
    pyStrip (c :: (ws ++ (dc ++ tail))) = c :: (ws ++ (dc ++ tail)) := by
  have hne : dc ++ tail ≠ [] := fun hemp => hdc (List.append_eq_nil.mp hemp).1
  apply pyStrip_eq_self
  · intro x hx
    cases hx
    exact not_space_of_sym hc
  · intro x hx
    have hx' : ((c :: ws) ++ (dc ++ tail)).getLast? = some x := by
      rw [List.cons_append]
      exact hx
    exact mem_dcTail_not_space hdcP ht x (getLast?_append_right_mem hne hx')

theorem takeWhile_nil_of_head {p : Char → Bool} {l : List Char}
    (h : ∀ c, l.head? = some c → p c = false) : l.takeWhile p = [] := by
  cases l with
  | nil => rfl
  | cons c rest => rw [List.takeWhile_cons, if_neg (by simp [h c rfl])]

theorem tail_head_not_dc {tail : List Char} (ht : TailShape tail) :
    ∀ c, tail.head? = some c → isDigitOrComma c = false := by
  intro c hc
  rcases ht with rfl | ⟨frac, rfl, _, _⟩
  · cases hc
  · cases hc
    decide

theorem matchCore_fix {ws dc tail : List Char}
    (hws : ∀ x ∈ ws, isSpace x = true) (hdc : dc ≠ [])
    (hdcP : ∀ x ∈ dc, isDigitOrComma x = true) (ht : TailShape tail) :
    matchCore (ws ++ (dc ++ tail)) = some (ws ++ (dc ++ tail)) := by
  have hnospace : ∀ x ∈ dc ++ tail, isSpace x = false := mem_dcTail_not_space hdcP ht
  have hWS : coreWS (ws ++ (dc ++ tail)) = ws := by
    unfold coreWS
    rw [takeWhile_append_all hws, takeWhile_nil_of_all_false hnospace, List.append_nil]
  have hdrop : (ws ++ (dc ++ tail)).dropWhile isSpace = dc ++ tail := by
    rw [dropWhile_append_all hws, dropWhile_eq_self_of_head
      (fun c hc => hnospace c (List.mem_of_mem_head? hc))]
  have hDC : coreDC (ws ++ (dc ++ tail)) = dc := by
    unfold coreDC
    rw [hdrop, takeWhile_append_all hdcP, takeWhile_nil_of_head (tail_head_not_dc ht),
      List.append_nil]
  have hRest : coreRest (ws ++ (dc ++ tail)) = tail := by
    unfold coreRest
    rw [hdrop, dropWhile_append_all hdcP, dropWhile_eq_self_of_head (tail_head_not_dc ht)]
  unfold matchCore
  rw [hWS, hDC, hRest, if_neg hdc]
  rcases ht with rfl | ⟨frac, rfl, hlen, hfr⟩
  · simp
  · show some (ws ++ dc ++ '.' :: fracOf frac) = _
    unfold fracOf
    rw [List.takeWhile_eq_self_iff.mpr hfr, List.take_of_length_le hlen,
      List.append_assoc]

theorem clean_price_eq_of_search {t m : List Char} (hne : t.isEmpty = false)
    (hm : reSearch (pyStrip t) = some m) :
    clean_price t = if startsWithPriceSym (pyStrip m) then some (pyStrip m)
      else some ('$' :: pyStrip m) := by
  unfold clean_price
  rw [if_neg (by simp [hne]), hm]

theorem clean_price_eq_none_of_search {t : List Char} (hne : t.isEmpty = false)
    (hm : reSearch (pyStrip t) = none) : clean_price t = none := by
  unfold clean_price
  rw [if_neg (by simp [hne]), hm]

theorem clean_price_fix {p : List Char} (h : GoodPrice p) : clean_price p = some p := by
  obtain ⟨c, ws, dc, tail, rfl, hc, hws, hdc, hdcP, ht⟩ := h
  have hstrip := @pyStrip_sym c ws dc tail hc hdc hdcP ht
  have hAt : matchAt (c :: (ws ++ (dc ++ tail))) = some (c :: (ws ++ (dc ++ tail))) := by
    simp only [matchAt]
    rw [if_pos hc, matchCore_fix hws hdc hdcP ht]
  have hsearch : reSearch (pyStrip (c :: (ws ++ (dc ++ tail)))) =
      some (c :: (ws ++ (dc ++ tail))) := by
    rw [hstrip, reSearch, hAt]
  rw [clean_price_eq_of_search (by simp) hsearch, hstrip,
    if_pos (show startsWithPriceSym (c :: (ws ++ (dc ++ tail))) = true from hc)]

theorem clean_price_good {t p : List Char} (h : clean_price t = some p) : GoodPrice p := by
  by_cases he : t.isEmpty = true
  · unfold clean_price at h
    rw [if_pos he] at h
    exact absurd h (by simp)
  · have hne : t.isEmpty = false := Bool.eq_false_iff.mpr he
    cases hs : reSearch (pyStrip t) with
    | none =>
      rw [clean_price_eq_none_of_search hne hs] at h
      exact absurd h (by simp)
    | some m =>
      rw [clean_price_eq_of_search hne hs] at h
      rcases reSearch_shape hs with hcore | ⟨c, m', hm, hc, hcore⟩
      · obtain ⟨ws, dc, tail, rfl, hws, hdc, hdcP, ht⟩ := hcore
        rw [pyStrip_core hws hdc hdcP ht] at h
        have hsw : startsWithPriceSym (dc ++ tail) = false := by
          cases dc with
          | nil => exact absurd rfl hdc
          | cons d dc' =>
            show isPriceSym d = false
            exact not_sym_of_digitOrComma (hdcP d (by simp))
        rw [if_neg (by simp [hsw])] at h
        injection h with h
        subst h
        exact ⟨'$', [], dc, tail, by simp, by decide, by simp, hdc, hdcP, ht⟩
      · subst hm
        obtain ⟨ws, dc, tail, rfl, hws, hdc, hdcP, ht⟩ := hcore
        rw [pyStrip_sym hc hdc hdcP ht,
          if_pos (show startsWithPriceSym (c :: (ws ++ (dc ++ tail))) = true from hc)] at h
        injection h with h
        subst h
        exact ⟨c, ws, dc, tail, rfl, hc, hws, hdc, hdcP, ht⟩

/-! ## C1-related: digit-free inputs -/

theorem matchCore_none {s : List Char} (h : ∀ c ∈ s, isDigitOrComma c = false) :
    matchCore s = none := by
  unfold matchCore
  rw [if_pos]
  unfold coreDC
  exact takeWhile_nil_of_all_false
    (fun c hc => h c ((List.dropWhile_sublist isSpace).subset hc))

theorem reSearch_none {s : List Char} (h : ∀ c ∈ s, isDigitOrComma c = false) :
    reSearch s = none := by
  induction s with
  | nil => rfl
  | cons c rest ih =>
    have hrest : ∀ x ∈ rest, isDigitOrComma x = false :=
      fun x hx => h x (List.mem_cons_of_mem _ hx)
    have hAt : matchAt (c :: rest) = none := by
      simp only [matchAt]
      by_cases hc : isPriceSym c = true
      · rw [if_pos hc, matchCore_none hrest, matchCore_none h]
      · rw [if_neg hc]
        exact matchCore_none h
    rw [reSearch, hAt]
    exact ih hrest

/-! ## Claim theorems for the PriceNormalizer -/

/-- C1 (counterexample): the claim "every digit-free input yields Invalid"
is false on the code: the input `","` contains no digit character, yet
`clean_price` returns the price string `"$,"`, because the regex class
`[\d,]+` is satisfied by a comma alone. -/
theorem clean_price_digit_free_counterexample :
    (∀ c ∈ [','], isDigitCh c = false) ∧ clean_price [','] = some ['$', ','] := by
  decide

/-- C1 (amended): for every input text that contains no digit characters and
no comma characters, `clean_price` returns Invalid (`none`); it never returns
a price for such input. -/
theorem clean_price_no_digit_comma {t : List Char}
    (h : ∀ c ∈ t, isDigitOrComma c = false) : clean_price t = none := by
  unfold clean_price
  by_cases he : t.isEmpty = true
  · rw [if_pos he]
  · rw [if_neg he, reSearch_none (fun c hc => h c (mem_pyStrip hc))]

/-- C1 (witness): `"N/A"` has no digits and no commas, and is rejected. -/
theorem clean_price_no_digit_comma_witness : clean_price ['N', '/', 'A'] = none :=
  clean_price_no_digit_comma (by decide)

/-- C2: whenever the price regex matches and the (stripped) matched text does
not begin with a captured currency symbol, `clean_price` returns the matched
text prefixed with `'$'`. `clean_price` takes no region argument at all
(src/scraper.py:600-629), so this default is applied regardless of the
scraper's configured region. -/
theorem clean_price_default_dollar {t m : List Char}
    (hne : t.isEmpty = false)
    (hm : reSearch (pyStrip t) = some m)
    (hsym : startsWithPriceSym (pyStrip m) = false) :
    clean_price t = some ('$' :: pyStrip m) := by
  rw [clean_price_eq_of_search hne hm, if_neg (by simp [hsym])]

/-- C2 (witness): a UK price rendered without its `£` symbol, `"12.99"`,
comes back labelled `"$12.99"`. -/
theorem clean_price_default_dollar_witness :
    clean_price "12.99".data = some ('$' :: pyStrip "12.99".data) :=
  clean_price_default_dollar (by decide) (by decide) (by decide)

/-- C3: `clean_price` is idempotent: if it returns a price string `p` for
some input, then running it on `p` returns `p` itself — same currency symbol
and same numeric text. -/
theorem clean_price_idempotent {t p : List Char} (h : clean_price t = some p) :
    clean_price p = some p :=
  clean_price_fix (clean_price_good h)

/-- C3 (witness): `clean_price "25" = "$25"` and `clean_price "$25" = "$25"`. -/
theorem clean_price_idempotent_witness :
    clean_price ['2', '5'] = some ['$', '2', '5'] ∧
    clean_price ['$', '2', '5'] = some ['$', '2', '5'] :=
  ⟨by decide, @clean_price_idempotent ['2', '5'] ['$', '2', '5'] (by decide)⟩

/-! ## RegionProfile — `EBAY_REGIONS` (src/scraper.py:16-24), the
geolocation/locale table (src/scraper.py:55-63) and the fallback logic of
`__init__` (src/scraper.py:36) and `start` (src/scraper.py:65). All lookups
are total (`dict.get` with a default), so construction and start never
raise on an unknown region code. -/

/-- `dict.get(key, default)` over an association list. -/
def dictGet {α : Type} (table : List (String × α)) (key : String) (dflt : α) : α :=
  match table.find? (fun p => p.1 == key) with
  | some p => p.2
  | none => dflt

def EBAY_REGIONS : List (String × String) :=
  [("UK", "https://www.ebay.co.uk"),
   ("US", "https://www.ebay.com"),
   ("DE", "https://www.ebay.de"),
   ("FR", "https://www.ebay.fr"),
   ("AU", "https://www.ebay.com.au"),
   ("CA", "https://www.ebay.ca")]

/-- One row of the `geolocation_settings` table in `start`. The decimal
literals of the source are represented exactly as rationals. -/
structure GeoSetting where
  latitude : ℚ
  longitude : ℚ
  locale : String
deriving DecidableEq, Repr

def geolocation_settings : List (String × GeoSetting) :=
  [("UK", ⟨51.5074, -0.1278, "en-GB"⟩),
   ("US", ⟨37.7749, -122.4194, "en-US"⟩),
   ("DE", ⟨52.5200, 13.4050, "de-DE"⟩),
   ("FR", ⟨48.8566, 2.3522, "fr-FR"⟩),
   ("AU", ⟨-33.8688, 151.2093, "en-AU"⟩),
   ("CA", ⟨43.6532, -79.3832, "en-CA"⟩)]

/-- `__init__`: `self.ebay_url = self.EBAY_REGIONS.get(region, self.EBAY_REGIONS['UK'])`. -/
def ebay_url_of (region : String) : String :=
  dictGet EBAY_REGIONS region (dictGet EBAY_REGIONS "UK" "")

/-- `start`: `region_settings = geolocation_settings.get(self.region,
geolocation_settings['UK'])`. -/
def region_settings_of (region : String) : GeoSetting :=
  dictGet geolocation_settings region (dictGet geolocation_settings "UK" ⟨0, 0, ""⟩)

/-- The supported region codes: the keys of `EBAY_REGIONS`. -/
def supportedRegions : List String := EBAY_REGIONS.map Prod.fst

theorem dictGet_not_mem {α : Type} {table : List (String × α)} {key : String}
    {dflt : α} (h : key ∉ table.map Prod.fst) : dictGet table key dflt = dflt := by
  have hf : table.find? (fun p => p.1 == key) = none := by
    rw [List.find?_eq_none]
    intro p hp
    simp only [beq_iff_eq]
    intro hk
    exact h (hk ▸ List.mem_map_of_mem Prod.fst hp)
  unfold dictGet
  rw [hf]

/-- C4: any region code outside the supported set resolves to the UK
profile — the UK base URL, London geolocation and the `en-GB` locale — and
every supported code maps to exactly one row of each table. Both lookups
are total functions, so no region code raises. -/
theorem region_fallback (r : String) (h : r ∉ supportedRegions) :
    ebay_url_of r = "https://www.ebay.co.uk" ∧
    region_settings_of r = ⟨51.5074, -0.1278, "en-GB"⟩ ∧
    (∀ s ∈ supportedRegions,
      (EBAY_REGIONS.filter (fun p => p.1 == s)).length = 1 ∧
      (geolocation_settings.filter (fun p => p.1 == s)).length = 1) := by
  have h2 : r ∉ geolocation_settings.map Prod.fst := by
    intro hr
    apply h
    simpa [supportedRegions, EBAY_REGIONS, geolocation_settings] using hr
  refine ⟨?_, ?_, by decide⟩
  · unfold ebay_url_of
    rw [dictGet_not_mem (by simpa [supportedRegions] using h)]
    rfl
  · unfold region_settings_of
    rw [dictGet_not_mem h2]
    rfl

/-- C4 (witness): region `"ZZ"` is unsupported and falls back to the UK
profile. -/
theorem region_fallback_witness :
    ebay_url_of "ZZ" = "https://www.ebay.co.uk" ∧
    region_settings_of "ZZ" = ⟨51.5074, -0.1278, "en-GB"⟩ ∧
    (∀ s ∈ supportedRegions,
      (EBAY_REGIONS.filter (fun p => p.1 == s)).length = 1 ∧
      (geolocation_settings.filter (fun p => p.1 == s)).length = 1) :=
  region_fallback "ZZ" (by decide)

/-! ## SortStage — `EbayScraper.sort_by_lowest_price` (src/scraper.py:298-367)

The current results URL is modelled in the parsed form `urlparse` produces:
scheme, netloc, path, params, fragment, and the query as its decoded
key/value pairs in order. `parse_qs(query, keep_blank_values=True)` groups
the pairs by key — keys in first-occurrence order, each key mapped to its
values in order — and `urlencode(params, doseq=True)` emits one pair per
value in dict order. -/

structure UrlParts where
  scheme : String
  netloc : String
  path : String
  params : String
  query : List (String × String)
  fragment : String
deriving DecidableEq, Repr

/-- The value sequence of key `k` in a query pair list. -/
def qsVals (k : String) (q : List (String × String)) : List String :=
  (q.filter (fun p => p.1 == k)).map Prod.snd

/-- The value sequence of key `k` in a grouped parameter dict. -/
def gvals (k : String) (ps : List (String × List String)) : List String :=
  ((ps.filter (fun p => p.1 == k)).map Prod.snd).flatten

/-- Fueled grouping recursion of `parse_qs`; the fuel only forces
termination and is irrelevant once at least `q.length` (see
`parseQS_fuel_irrel`). -/
def parseQS : Nat → List (String × String) → List (String × List String)
  | _, [] => []
  | 0, _ :: _ => []
  | fuel + 1, (k, v) :: rest =>
    (k, v :: qsVals k rest) :: parseQS fuel (rest.filter (fun p => !(p.1 == k)))

/-- `urllib.parse.parse_qs(query, keep_blank_values=True)`: group the pairs
by key, keys in first-occurrence order, values in order (blank values are
pairs with value `""` and are kept like any other). -/
def parse_qs (q : List (String × String)) : List (String × List String) :=
  parseQS q.length q

/-- Python dict assignment `params['_sop'] = ['15']`: replace the value at
the key in place, keeping its position, or append the key at the end. -/
def dictSet (ps : List (String × List String)) (k : String) (v : List String) :
    List (String × List String) :=
  match ps with
  | [] => [(k, v)]
  | p :: rest => if p.1 == k then (k, v) :: rest else p :: dictSet rest k v

/-- `params.pop('_trksid', None)`. -/
def dictPop (ps : List (String × List String)) (k : String) :
    List (String × List String) :=
  ps.filter (fun p => !(p.1 == k))

/-- `urllib.parse.urlencode(params, doseq=True)`: one `key=value` pair per
list element, in dict order. -/
def urlencode : List (String × List String) → List (String × String)
  | [] => []
  | p :: rest => p.2.map (fun v => (p.1, v)) ++ urlencode rest

/-- The URL rewrite of `sort_by_lowest_price` (src/scraper.py:317-339):
parse the query, set `_sop` to `['15']`, pop `_trksid`, re-serialize;
`urlunparse` passes scheme, netloc, path, params and fragment through
unchanged. -/
def sortRewrite (u : UrlParts) : UrlParts :=
  { u with
    query := urlencode (dictPop (dictSet (parse_qs u.query) "_sop" ["15"]) "_trksid") }

/-- `EbayScraper.sort_by_lowest_price` (src/scraper.py:298-367): navigate to
the rewritten URL. `nav` models `page.goto` plus the load-state wait;
`none` means a raised timeout, which the `except` branch turns into
`False`. On a successful navigation the `'_sop=15' in final_url` check only
chooses which message to print — the function returns `True` either way. -/
def sort_by_lowest_price (u : UrlParts) (nav : UrlParts → Option UrlParts) : Bool :=
  match nav (sortRewrite u) with
  | some _ => true
  | none => false

theorem parseQS_fuel_irrel :
    ∀ (f1 : Nat), ∀ (f2 : Nat) (q : List (String × String)), q.length ≤ f1 →
      q.length ≤ f2 → parseQS f1 q = parseQS f2 q := by
  intro f1
  induction f1 with
  | zero =>
    intro f2 q hq _
    have : q = [] := List.length_eq_zero.mp (Nat.le_zero.mp hq)
    subst this
    cases f2 <;> rfl
  | succ f1 ih =>
    intro f2 q hq1 hq2
    cases q with
    | nil => cases f2 <;> rfl
    | cons p rest =>
      obtain ⟨k, v⟩ := p
      cases f2 with
      | zero => exact absurd hq2 (by simp)
      | succ f2 =>
        show (k, v :: qsVals k rest) :: parseQS f1 (rest.filter (fun p => !(p.1 == k))) =
          (k, v :: qsVals k rest) :: parseQS f2 (rest.filter (fun p => !(p.1 == k)))
        have hle : (rest.filter (fun p => !(p.1 == k))).length ≤ rest.length :=
          List.length_filter_le _ _
        rw [ih f2 _ (le_trans hle (Nat.le_of_succ_le_succ hq1))
          (le_trans hle (Nat.le_of_succ_le_succ hq2))]

theorem parse_qs_nil : parse_qs [] = [] := rfl

theorem parse_qs_cons (k : String) (v : String) (rest : List (String × String)) :
    parse_qs ((k, v) :: rest) =
      (k, v :: qsVals k rest) :: parse_qs (rest.filter (fun p => !(p.1 == k))) := by
  show parseQS (rest.length + 1) ((k, v) :: rest) = _
  show (k, v :: qsVals k rest) :: parseQS rest.length (rest.filter (fun p => !(p.1 == k))) = _
  rw [parseQS_fuel_irrel rest.length (rest.filter (fun p => !(p.1 == k))).length _
    (List.length_filter_le _ _) le_rfl]
  rfl

theorem qsVals_cons (k k₀ v : String) (rest : List (String × String)) :
    qsVals k ((k₀, v) :: rest) = (if k₀ == k then [v] else []) ++ qsVals k rest := by
  by_cases hk : (k₀ == k) = true <;> simp [qsVals, List.filter_cons, hk]

theorem gvals_cons (k k₀ : String) (vs : List String)
    (rest : List (String × List String)) :
    gvals k ((k₀, vs) :: rest) = (if k₀ == k then vs else []) ++ gvals k rest := by
  by_cases hk : (k₀ == k) = true <;> simp [gvals, List.filter_cons, hk]

theorem filter_key_of_filter_ne {β : Type} {k k₀ : String} (hk : k ≠ k₀)
    (l : List (String × β)) :
    (l.filter (fun p => !(p.1 == k₀))).filter (fun p => p.1 == k) =
      l.filter (fun p => p.1 == k) := by
  rw [List.filter_filter]
  apply List.filter_congr
  intro p _
  by_cases hp : (p.1 == k) = true
  · have hpk : p.1 = k := eq_of_beq hp
    have : (p.1 == k₀) = false := by
      rw [beq_eq_false_iff_ne, hpk]
      exact hk
    simp [hp, this]
  · simp [hp]

theorem filter_key_of_filter_self {β : Type} (k : String) (l : List (String × β)) :
    (l.filter (fun p => !(p.1 == k))).filter (fun p => p.1 == k) = [] := by
  rw [List.filter_filter]
  rw [List.filter_congr (fun a _ => Bool.and_not_self (a.1 == k)), List.filter_false]

theorem qsVals_filter_ne {k k₀ : String} (hk : k ≠ k₀)
    (rest : List (String × String)) :
    qsVals k (rest.filter (fun p => !(p.1 == k₀))) = qsVals k rest := by
  unfold qsVals
  rw [filter_key_of_filter_ne hk]

theorem qsVals_filter_self (k : String) (rest : List (String × String)) :
    qsVals k (rest.filter (fun p => !(p.1 == k))) = [] := by
  unfold qsVals
  rw [filter_key_of_filter_self]
  rfl

theorem gvals_parse_qs_aux (k : String) :
    ∀ (n : Nat) (q : List (String × String)), q.length ≤ n →
      gvals k (parse_qs q) = qsVals k q := by
  intro n
  induction n with
  | zero =>
    intro q hq
    have : q = [] := List.length_eq_zero.mp (Nat.le_zero.mp hq)
    subst this
    rfl
  | succ n ih =>
    intro q hq
    cases q with
    | nil => rfl
    | cons p rest =>
      obtain ⟨k₀, v⟩ := p
      have hrec := ih (rest.filter (fun p => !(p.1 == k₀)))
        (le_trans (List.length_filter_le _ _) (Nat.le_of_succ_le_succ hq))
      rw [parse_qs_cons, gvals_cons, hrec, qsVals_cons]
      by_cases hk : (k₀ == k) = true
      · have : k = k₀ := (eq_of_beq hk).symm
        subst this
        rw [if_pos hk, if_pos hk, qsVals_filter_self]
        simp
      · have hne : k ≠ k₀ := fun hkk => hk (beq_iff_eq.mpr hkk.symm)
        rw [if_neg hk, if_neg hk, qsVals_filter_ne hne]

theorem gvals_parse_qs (k : String) (q : List (String × String)) :
    gvals k (parse_qs q) = qsVals k q :=
  gvals_parse_qs_aux k q.length q le_rfl

theorem filter_map_const_key (k₀ k : String) (vs : List String) :
    ((vs.map (fun v => (k₀, v))).filter (fun p => p.1 == k)) =
      if k₀ == k then vs.map (fun v => (k₀, v)) else [] := by
  induction vs with
  | nil => simp
  | cons v vs ih =>
    by_cases hk : (k₀ == k) = true <;>
      simp only [List.map_cons, List.filter_cons, hk, ih] <;> simp [hk]

theorem qsVals_urlencode (k : String) (ps : List (String × List String)) :
    qsVals k (urlencode ps) = gvals k ps := by
  induction ps with
  | nil => rfl
  | cons p rest ih =>
    obtain ⟨k₀, vs⟩ := p
    show qsVals k (vs.map (fun v => (k₀, v)) ++ urlencode rest) = _
    unfold qsVals
    rw [List.filter_append, List.map_append, filter_map_const_key, gvals_cons]
    by_cases hk : (k₀ == k) = true
    · rw [if_pos hk, if_pos hk]
      simp only [List.map_map]
      have : qsVals k (urlencode rest) = gvals k rest := ih
      unfold qsVals at this
      rw [this]
      congr 1
      simp
    · rw [if_neg hk, if_neg hk]
      simp only [List.map_nil, List.nil_append]
      exact ih

theorem keys_parseQS_sub :
    ∀ (n : Nat) (q : List (String × String)) (a : String), q.length ≤ n →
      a ∈ (parse_qs q).map Prod.fst → a ∈ q.map Prod.fst := by
  intro n
  induction n with
  | zero =>
    intro q a hq
    have : q = [] := List.length_eq_zero.mp (Nat.le_zero.mp hq)
    subst this
    simp [parse_qs_nil]
  | succ n ih =>
    intro q a hq hmem
    cases q with
    | nil =>
      rw [parse_qs_nil] at hmem
      exact absurd hmem (by simp)
    | cons p rest =>
      obtain ⟨k₀, v⟩ := p
      rw [parse_qs_cons] at hmem
      simp only [List.map_cons, List.mem_cons] at hmem ⊢
      rcases hmem with rfl | hmem
      · exact Or.inl rfl
      · have := ih (rest.filter (fun p => !(p.1 == k₀))) a
          (le_trans (List.length_filter_le _ _) (Nat.le_of_succ_le_succ hq)) hmem
        obtain ⟨p, hp, hfst⟩ := List.mem_map.mp this
        exact Or.inr (hfst ▸ List.mem_map_of_mem Prod.fst (List.mem_filter.mp hp).1)

theorem keys_parse_qs_nodup :
    ∀ (n : Nat) (q : List (String × String)), q.length ≤ n →
      ((parse_qs q).map Prod.fst).Nodup := by
  intro n
  induction n with
  | zero =>
    intro q hq
    have : q = [] := List.length_eq_zero.mp (Nat.le_zero.mp hq)
    subst this
    simp [parse_qs_nil]
  | succ n ih =>
    intro q hq
    cases q with
    | nil => simp [parse_qs_nil]
    | cons p rest =>
      obtain ⟨k₀, v⟩ := p
      have hlen : (rest.filter (fun p => !(p.1 == k₀))).length ≤ n :=
        le_trans (List.length_filter_le _ _) (Nat.le_of_succ_le_succ hq)
      rw [parse_qs_cons]
      simp only [List.map_cons, List.nodup_cons]
      refine ⟨?_, ih _ hlen⟩
      intro hmem
      have := keys_parseQS_sub _ _ _ le_rfl hmem
      obtain ⟨p, hp, hfst⟩ := List.mem_map.mp this
      have hflt := (List.mem_filter.mp hp).2
      rw [hfst] at hflt
      simp at hflt

theorem gvals_nil_of_not_mem {k : String} {ps : List (String × List String)}
    (h : k ∉ ps.map Prod.fst) : gvals k ps = [] := by
  unfold gvals
  rw [List.filter_eq_nil_iff.mpr]
  · rfl
  · intro p hp
    simp only [beq_iff_eq]
    intro hk
    exact h (hk ▸ List.mem_map_of_mem Prod.fst hp)

theorem gvals_dictSet_self (k : String) (v : List String) :
    ∀ (ps : List (String × List String)), ((ps.map Prod.fst).Nodup) →
      gvals k (dictSet ps k v) = v := by
  intro ps
  induction ps with
  | nil =>
    intro _
    simp [dictSet, gvals, List.filter_cons]
  | cons p rest ih =>
    intro hnd
    simp only [List.map_cons, List.nodup_cons] at hnd
    unfold dictSet
    by_cases hk : (p.1 == k) = true
    · rw [if_pos hk, gvals_cons, if_pos (by simp)]
      have : gvals k rest = [] :=
        gvals_nil_of_not_mem (fun hmem => hnd.1 ((eq_of_beq hk) ▸ hmem))
      rw [this, List.append_nil]
    · rw [if_neg hk]
      have : gvals k (p :: dictSet rest k v) =
          (if p.1 == k then p.2 else []) ++ gvals k (dictSet rest k v) := by
        obtain ⟨q1, q2⟩ := p
        exact gvals_cons k q1 q2 _
      rw [this, if_neg hk, List.nil_append]
      exact ih hnd.2

theorem gvals_dictSet_other {k k' : String} (hne : k' ≠ k) (v : List String) :
    ∀ (ps : List (String × List String)), gvals k' (dictSet ps k v) = gvals k' ps := by
  intro ps
  induction ps with
  | nil =>
    simp only [dictSet, gvals, List.filter_cons]
    rw [if_neg (by simp [Ne.symm hne])]
  | cons p rest ih =>
    unfold dictSet
    by_cases hk : (p.1 == k) = true
    · rw [if_pos hk, gvals_cons, if_neg (by simp [Ne.symm hne])]
      have hp1 : p.1 = k := eq_of_beq hk
      have : gvals k' (p :: rest) =
          (if p.1 == k' then p.2 else []) ++ gvals k' rest := by
        obtain ⟨q1, q2⟩ := p
        exact gvals_cons k' q1 q2 _
      rw [this, if_neg (by simp [hp1]; exact fun hkk => hne hkk.symm)]
    · rw [if_neg hk]
      have h1 : gvals k' (p :: dictSet rest k v) =
          (if p.1 == k' then p.2 else []) ++ gvals k' (dictSet rest k v) := by
        obtain ⟨q1, q2⟩ := p
        exact gvals_cons k' q1 q2 _
      have h2 : gvals k' (p :: rest) =
          (if p.1 == k' then p.2 else []) ++ gvals k' rest := by
        obtain ⟨q1, q2⟩ := p
        exact gvals_cons k' q1 q2 _
      rw [h1, h2, ih]

theorem gvals_dictPop_self (k : String) (ps : List (String × List String)) :
    gvals k (dictPop ps k) = [] := by
  unfold gvals dictPop
  rw [filter_key_of_filter_self]
  rfl

theorem gvals_dictPop_other {k k' : String} (hne : k' ≠ k)
    (ps : List (String × List String)) : gvals k' (dictPop ps k) = gvals k' ps := by
  unfold gvals dictPop
  rw [filter_key_of_filter_ne hne]

/-- C6: the URL-rewrite sort step sets the sort key to the price-ascending
code (`_sop=15`, exactly one such pair), removes the `_trksid` tracking
parameter, and preserves every other query parameter's value sequence as
well as the scheme, host, path, params and fragment. After a successful
navigation, the `_sop=15` check on the final URL is log-only:
`sort_by_lowest_price` returns `True` whatever the final URL is. -/
theorem sortRewrite_spec (u : UrlParts) (k : String) (hk1 : k ≠ "_sop")
    (hk2 : k ≠ "_trksid") (nav : UrlParts → Option UrlParts) (f : UrlParts)
    (hnav : nav (sortRewrite u) = some f) :
    (sortRewrite u).scheme = u.scheme ∧
    (sortRewrite u).netloc = u.netloc ∧
    (sortRewrite u).path = u.path ∧
    (sortRewrite u).params = u.params ∧
    (sortRewrite u).fragment = u.fragment ∧
    qsVals "_sop" (sortRewrite u).query = ["15"] ∧
    qsVals "_trksid" (sortRewrite u).query = [] ∧
    qsVals k (sortRewrite u).query = qsVals k u.query ∧
    sort_by_lowest_price u nav = true := by
  have hq : (sortRewrite u).query =
      urlencode (dictPop (dictSet (parse_qs u.query) "_sop" ["15"]) "_trksid") := rfl
  refine ⟨rfl, rfl, rfl, rfl, rfl, ?_, ?_, ?_, ?_⟩
  · rw [hq, qsVals_urlencode, gvals_dictPop_other (by decide),
      gvals_dictSet_self _ _ _ (keys_parse_qs_nodup u.query.length u.query le_rfl)]
  · rw [hq, qsVals_urlencode, gvals_dictPop_self]
  · rw [hq, qsVals_urlencode, gvals_dictPop_other hk2, gvals_dictSet_other hk1,
      gvals_parse_qs]
  · unfold sort_by_lowest_price
    rw [hnav]

/-- C6 (witness): a concrete results URL with an existing `_sop`, a
`_trksid` and an unrelated parameter, rewritten and navigated. -/
theorem sortRewrite_spec_witness :
    (sortRewrite ⟨"https", "www.ebay.co.uk", "/sch/i.html", "",
        [("_nkw", "iphone 15 pro"), ("_trksid", "p2334524"), ("_sop", "12")],
        ""⟩).scheme = "https" ∧
    (sortRewrite ⟨"https", "www.ebay.co.uk", "/sch/i.html", "",
        [("_nkw", "iphone 15 pro"), ("_trksid", "p2334524"), ("_sop", "12")],
        ""⟩).netloc = "www.ebay.co.uk" ∧
    (sortRewrite ⟨"https", "www.ebay.co.uk", "/sch/i.html", "",
        [("_nkw", "iphone 15 pro"), ("_trksid", "p2334524"), ("_sop", "12")],
        ""⟩).path = "/sch/i.html" ∧
    (sortRewrite ⟨"https", "www.ebay.co.uk", "/sch/i.html", "",
        [("_nkw", "iphone 15 pro"), ("_trksid", "p2334524"), ("_sop", "12")],
        ""⟩).params = "" ∧
    (sortRewrite ⟨"https", "www.ebay.co.uk", "/sch/i.html", "",
        [("_nkw", "iphone 15 pro"), ("_trksid", "p2334524"), ("_sop", "12")],
        ""⟩).fragment = "" ∧
    qsVals "_sop" (sortRewrite ⟨"https", "www.ebay.co.uk", "/sch/i.html", "",
        [("_nkw", "iphone 15 pro"), ("_trksid", "p2334524"), ("_sop", "12")],
        ""⟩).query = ["15"] ∧
    qsVals "_trksid" (sortRewrite ⟨"https", "www.ebay.co.uk", "/sch/i.html", "",
        [("_nkw", "iphone 15 pro"), ("_trksid", "p2334524"), ("_sop", "12")],
        ""⟩).query = [] ∧
    qsVals "_nkw" (sortRewrite ⟨"https", "www.ebay.co.uk", "/sch/i.html", "",
        [("_nkw", "iphone 15 pro"), ("_trksid", "p2334524"), ("_sop", "12")],
        ""⟩).query =
      qsVals "_nkw" (⟨"https", "www.ebay.co.uk", "/sch/i.html", "",
        [("_nkw", "iphone 15 pro"), ("_trksid", "p2334524"), ("_sop", "12")],
        ""⟩ : UrlParts).query ∧
    sort_by_lowest_price ⟨"https", "www.ebay.co.uk", "/sch/i.html", "",
        [("_nkw", "iphone 15 pro"), ("_trksid", "p2334524"), ("_sop", "12")],
        ""⟩ (fun x => some x) = true :=
  sortRewrite_spec _ "_nkw" (by decide) (by decide) (fun x => some x) _ rfl

/-! ## ExtractionStage and StoreMatcher — `EbayScraper.extract_lowest_price`
(src/scraper.py:368-598)

A result card is modelled by what its locators resolve to: its rendered
inner HTML (used only by the store matcher's substring test), the first
link selector that resolved (with its href), the resolved title text, the
`data-listingid` attribute, and the price texts the ordered price selectors
yield on the card's detail page. -/

structure SCard where
  innerHtml : String
  linkHref : Option String
  titleText : String
  listingId : Option String
  detailPriceTexts : List (List Char)
deriving DecidableEq, Repr

structure Listing where
  title : String
  price : List Char
  url : String
deriving DecidableEq, Repr

/-- The result object of `extract_lowest_price`: the `'lowest'` entry and
the optional `'your_store'` entry. -/
structure ExtractResult where
  lowest : Listing
  your_store : Option Listing
deriving DecidableEq, Repr

/-- Product-URL construction (src/scraper.py:426-437, 539-550):
`f"{self.ebay_url}/itm/{listing_id}"` when the card carries a truthy
`data-listingid` (Python treats `None` and `""` as falsy), otherwise the
link's raw href. -/
def productUrl (ebay_url : String) (listingId : Option String) (href : String) : String :=
  match listingId with
  | some lid => if lid == "" then href else ebay_url ++ "/itm/" ++ lid
  | none => href

/-- The price-selector loop on a detail page (src/scraper.py:455-470 and
563-574): the first candidate text whose `clean_price` is truthy wins
(`clean_price` never returns an empty string, so truthy = not `None`). -/
def firstValidPrice : List (List Char) → Option (List Char)
  | [] => none
  | t :: rest =>
    match clean_price t with
    | some p => some p
    | none => firstValidPrice rest

/-- Python's substring test `needle in hay`. -/
def strContains (hay needle : List Char) : Bool :=
  if needle.isPrefixOf hay then true
  else
    match hay with
    | [] => false
    | _ :: t => strContains t needle

/-- `store_name.lower() in item_html.lower()` (src/scraper.py:513). -/
def matchesStore (storeName itemHtml : String) : Bool :=
  strContains (itemHtml.data.map Char.toLower) (storeName.data.map Char.toLower)

/-- The body of the store-matching loop (src/scraper.py:508-585): cards in
document order; a card whose rendered HTML contains the store name
case-insensitively is inspected; if one of the two link selectors resolves,
the loop always `break`s after processing the card — `'your_store'` is set
only if a price was also extracted; if no link resolves there is no
`break`, so scanning continues with the next card. -/
def findStoreAux (ebay_url storeName : String) : List SCard → Option Listing
  | [] => none
  | card :: rest =>
    if matchesStore storeName card.innerHtml then
      match card.linkHref with
      | some href =>
        match firstValidPrice card.detailPriceTexts with
        | some p => some ⟨card.titleText, p, productUrl ebay_url card.listingId href⟩
        | none => none
      | none => findStoreAux ebay_url storeName rest
    else findStoreAux ebay_url storeName rest

/-- `for i in range(min(all_items.count(), 50))` (src/scraper.py:508): at
most the first 50 cards are examined. -/
def findStore (ebay_url storeName : String) (cards : List SCard) : Option Listing :=
  findStoreAux ebay_url storeName (cards.take 50)

/-- `EbayScraper.extract_lowest_price` (src/scraper.py:368-598) over a page
description: the first result card (`li[data-view*="iid:1"]`, `none` when
absent) and, for the optional store search, the result-card list. `none`
exactly on the source's hard failures: no first card, no clickable link,
or no valid price for the lowest listing. A store-match failure of any
kind never makes the result `none`. -/
def extract_lowest_price (ebay_url : String) (firstItem : Option SCard)
    (store_name : Option String) (cards : List SCard) : Option ExtractResult :=
  match firstItem with
  | none => none
  | some fc =>
    match fc.linkHref with
    | none => none
    | some href =>
      match firstValidPrice fc.detailPriceTexts with
      | none => none
      | some p =>
        match store_name with
        | none => some ⟨⟨fc.titleText, p, productUrl ebay_url fc.listingId href⟩, none⟩
        | some sn => some ⟨⟨fc.titleText, p, productUrl ebay_url fc.listingId href⟩,
            findStore ebay_url sn cards⟩

/-! ## SearchStage — `EbayScraper.search_product` (src/scraper.py:169-296) -/

/-- What the page did during `search_product`: whether `page.goto` (and the
rest of the navigation) completed without a raised timeout, whether a
search-box selector resolved, whether a no-results sentinel was visible,
and the bounded wait for result cards — `some n` means `wait_for_selector`
returned and `count()` was `n`; `none` means the wait raised (no card
appeared within the bound). -/
structure SearchEnv where
  navOk : Bool
  searchBoxFound : Bool
  noResultsVisible : Bool
  cardWait : Option Nat
deriving DecidableEq, Repr

/-- `EbayScraper.search_product` (src/scraper.py:169-296): `False` on a
navigation timeout, an unresolvable search box, a visible no-results
sentinel, or a successful wait that counts zero cards; the wait's own
timeout is caught (`"Could not find products, but continuing..."`) and the
function falls through to `return True`. -/
def search_product (env : SearchEnv) : Bool :=
  if !env.navOk then false
  else if !env.searchBoxFound then false
  else if env.noResultsVisible then false
  else
    match env.cardWait with
    | some 0 => false
    | some _ => true
    | none => true

/-! ## ScrapeOrchestrator — `EbayScraper.scrape` (src/scraper.py:631-664) -/

inductive TerminalState
  | Done
  | Failed
deriving DecidableEq, Repr

/-- `EbayScraper.scrape`: `start()` raising propagates out of `scrape`
(modelled as `.error ()`; the `finally` still closes the browser); a failed
search returns `None`; a failed sort only prints
`"Sorting failed, but continuing with unsorted results..."`; the extraction
result is returned as-is. -/
def scrape (startOk searchOk : Bool) (_sortOk : Bool)
    (extractResult : Option ExtractResult) : Except Unit (Option ExtractResult) :=
  if !startOk then .error ()
  else if !searchOk then .ok none
  else .ok extractResult

/-- The orchestrator's terminal state: `Done` exactly when `scrape`
produced a result object. -/
def terminalOf (r : Except Unit (Option ExtractResult)) : TerminalState :=
  match r with
  | .ok (some _) => .Done
  | _ => .Failed

/-! ## Claim theorems for the extraction pipeline and the orchestrator -/

/-- C5 (counterexample): the navigated product URL is built with the path
segment `/itm/`, not `/item/` as the claim states: with the UK base URL and
listing id `235634` the code produces `https://www.ebay.co.uk/itm/235634`. -/
theorem productUrl_counterexample :
    productUrl "https://www.ebay.co.uk" (some "235634") "https://example.org/x" =
      "https://www.ebay.co.uk/itm/235634" ∧
    ¬ productUrl "https://www.ebay.co.uk" (some "235634") "https://example.org/x" =
      "https://www.ebay.co.uk/item/235634" := by
  decide

/-- C5 (amended): whenever the card carries a non-empty `data-listingid`,
the product URL is constructed as `{baseUrl}/itm/{listingId}`; when the
attribute is absent — or empty, which Python's truthiness also rejects —
the raw link href is used verbatim. Both `extract_lowest_price` and
`findStoreAux` build their navigation URL with `productUrl`. -/
theorem productUrl_spec (base lid href : String) (hlid : ¬ lid = "") :
    productUrl base (some lid) href = base ++ "/itm/" ++ lid ∧
    productUrl base none href = href ∧
    productUrl base (some "") href = href := by
  refine ⟨?_, rfl, rfl⟩
  show (if lid == "" then href else base ++ "/itm/" ++ lid) = _
  rw [if_neg (by simp [hlid])]

/-- C5 (witness): listing id `123` on the UK site, and the href fallback. -/
theorem productUrl_spec_witness :
    productUrl "https://www.ebay.co.uk" (some "123") "https://h" =
      "https://www.ebay.co.uk" ++ "/itm/" ++ "123" ∧
    productUrl "https://www.ebay.co.uk" none "https://h" = "https://h" ∧
    productUrl "https://www.ebay.co.uk" (some "") "https://h" = "https://h" :=
  productUrl_spec "https://www.ebay.co.uk" "123" "https://h" (by decide)

theorem findStoreAux_append_skip (e s : String) {pre : List SCard}
    (h : ∀ c ∈ pre, matchesStore s c.innerHtml = false) (l : List SCard) :
    findStoreAux e s (pre ++ l) = findStoreAux e s l := by
  induction pre with
  | nil => rfl
  | cons c rest ih =>
    rw [List.cons_append]
    simp only [findStoreAux]
    rw [if_neg (by simp [h c (List.mem_cons_self c rest)])]
    exact ih (fun x hx => h x (List.mem_cons_of_mem _ hx))

/-- C8: the store matcher scans at most 50 cards in document order (the
scan of any card list equals the scan of its first 50 cards, so a match at
position 51 is never found); it tests the store name as a case-insensitive
substring of each card's rendered content; the first matching card (with a
resolvable link and a valid price) is returned immediately, whatever comes
after it; and when the bound is exhausted with no match the result is
absent (`none`), not an error. -/
theorem findStore_spec (e s href : String) (p : List Char) (pre post : List SCard)
    (card : SCard)
    (hpre : ∀ c ∈ pre, matchesStore s c.innerHtml = false)
    (hlen : pre.length < 50)
    (hm : matchesStore s card.innerHtml = true)
    (hhref : card.linkHref = some href)
    (hp : firstValidPrice card.detailPriceTexts = some p) :
    (∀ cards : List SCard, findStore e s cards = findStore e s (cards.take 50)) ∧
    findStore e s (pre ++ card :: post) =
      some ⟨card.titleText, p, productUrl e card.listingId href⟩ ∧
    (∀ cards : List SCard,
      (∀ c ∈ cards.take 50, matchesStore s c.innerHtml = false) →
      findStore e s cards = none) := by
  refine ⟨?_, ?_, ?_⟩
  · intro cards
    unfold findStore
    rw [List.take_take]
    simp
  · unfold findStore
    have h1 : (pre ++ card :: post).take 50 =
        pre ++ (card :: post).take (50 - pre.length) := by
      rw [List.take_append_eq_append_take, List.take_of_length_le (le_of_lt hlen)]
    obtain ⟨n, hn⟩ : ∃ n : Nat, 50 - pre.length = n + 1 :=
      ⟨49 - pre.length, by omega⟩
    rw [h1, hn, List.take_succ_cons, findStoreAux_append_skip e s hpre]
    simp only [findStoreAux]
    rw [if_pos hm]
    simp only [hhref, hp]
  · intro cards hall
    unfold findStore
    have hskip := findStoreAux_append_skip e s hall ([] : List SCard)
    rw [List.append_nil] at hskip
    exact hskip

/-- C8 (witness): a non-matching card followed by the matching store card;
the match is found at position 2 with title, price and canonical URL. -/
theorem findStore_spec_witness :
    findStore "https://www.ebay.co.uk" "uniquesellingmart"
      [⟨"<li>other seller</li>", some "https://x/a", "Other", none, [['9']]⟩,
       ⟨"<li>UniqueSellingMart offer</li>", some "https://x/b", "Yours",
         some "42", [['£', '5']]⟩] =
      some ⟨"Yours", ['£', '5'], "https://www.ebay.co.uk/itm/42"⟩ :=
  (findStore_spec "https://www.ebay.co.uk" "uniquesellingmart" "https://x/b"
    ['£', '5']
    [⟨"<li>other seller</li>", some "https://x/a", "Other", none, [['9']]⟩]
    []
    ⟨"<li>UniqueSellingMart offer</li>", some "https://x/b", "Yours",
      some "42", [['£', '5']]⟩
    (by decide) (by decide) (by decide) rfl (by decide)).2.1

/-- C7: a sort-stage failure is soft: when `sort_by_lowest_price` returns
`False` and extraction succeeds, `scrape` still returns the successful
result — terminal state `Done`, not `Failed` — with the (unsorted) result
it extracted. -/
theorem sort_soft_fail (u : UrlParts) (nav : UrlParts → Option UrlParts)
    (r : ExtractResult) (hsort : sort_by_lowest_price u nav = false) :
    scrape true true (sort_by_lowest_price u nav) (some r) = .ok (some r) ∧
    terminalOf (scrape true true (sort_by_lowest_price u nav) (some r)) = .Done := by
  rw [hsort]
  exact ⟨rfl, rfl⟩

/-- C7 (witness): a navigation timeout makes the sort stage return `False`,
yet the scrape of a concrete extracted result is `Done`. -/
theorem sort_soft_fail_witness :
    scrape true true
      (sort_by_lowest_price ⟨"https", "www.ebay.co.uk", "/sch/i.html", "", [], ""⟩
        (fun _ => none))
      (some ⟨⟨"iPhone 15 Pro", ['£', '1'], "https://www.ebay.co.uk/itm/1"⟩, none⟩) =
      .ok (some ⟨⟨"iPhone 15 Pro", ['£', '1'], "https://www.ebay.co.uk/itm/1"⟩, none⟩) ∧
    terminalOf (scrape true true
      (sort_by_lowest_price ⟨"https", "www.ebay.co.uk", "/sch/i.html", "", [], ""⟩
        (fun _ => none))
      (some ⟨⟨"iPhone 15 Pro", ['£', '1'], "https://www.ebay.co.uk/itm/1"⟩, none⟩)) =
      .Done :=
  sort_soft_fail _ _ _ rfl

/-- C9 (counterexample): the claim counts "no result card ever appears
within the bound" as NoResults, but when the bounded wait itself raises,
`search_product` catches the exception ("Could not find products, but
continuing...") and falls through to `True` — success, not NoResults. -/
theorem search_product_timeout_counterexample :
    search_product ⟨true, true, false, none⟩ = true := by decide

/-- C9 (amended): when the bounded wait completes and the counted result
cards are zero, the stage returns the no-results outcome (`False`), never
success; but when no card ever appears within the bound (the wait raises),
the timeout is swallowed and the stage returns `True`. -/
theorem search_product_zero_cards :
    (∀ env : SearchEnv, env.cardWait = some 0 → search_product env = false) ∧
    (∀ env : SearchEnv, env.navOk = true → env.searchBoxFound = true →
      env.noResultsVisible = false → env.cardWait = none →
      search_product env = true) := by
  constructor
  · rintro ⟨n, s, v, w⟩ hw
    cases hw
    cases n <;> cases s <;> cases v <;> decide
  · rintro ⟨n, s, v, w⟩ hn hs hv hw
    cases hn
    cases hs
    cases hv
    cases hw
    decide

/-- C9 (witness): zero counted cards classify as `False`; a raised wait
classifies as `True`. -/
theorem search_product_zero_cards_witness :
    search_product ⟨true, true, false, some 0⟩ = false ∧
    search_product ⟨true, true, false, none⟩ = true :=
  ⟨search_product_zero_cards.1 ⟨true, true, false, some 0⟩ rfl,
   search_product_zero_cards.2 ⟨true, true, false, none⟩ rfl rfl rfl rfl⟩

/-- C10: when the store matcher finds a matching card whose link resolves
but whose detail page yields no valid price (`clean_price` rejects every
candidate), the loop still `break`s — no further card is ever scanned,
whatever follows — `'your_store'` stays absent, extraction still succeeds
with the lowest listing, and the scrape terminates `Done`, not `Failed`. -/
theorem store_price_failure_soft (e s href0 href1 : String) (lp : List Char)
    (fc card : SCard) (rest : List SCard)
    (hfcl : fc.linkHref = some href0)
    (hfp : firstValidPrice fc.detailPriceTexts = some lp)
    (hm : matchesStore s card.innerHtml = true)
    (hcl : card.linkHref = some href1)
    (hnone : firstValidPrice card.detailPriceTexts = none) :
    findStoreAux e s (card :: rest) = none ∧
    extract_lowest_price e (some fc) (some s) (card :: rest) =
      some ⟨⟨fc.titleText, lp, productUrl e fc.listingId href0⟩, none⟩ ∧
    scrape true true true (extract_lowest_price e (some fc) (some s) (card :: rest)) =
      .ok (some ⟨⟨fc.titleText, lp, productUrl e fc.listingId href0⟩, none⟩) ∧
    terminalOf (scrape true true true
      (extract_lowest_price e (some fc) (some s) (card :: rest))) = .Done := by
  have haux : ∀ X : List SCard, findStoreAux e s (card :: X) = none := by
    intro X
    simp only [findStoreAux]
    rw [if_pos hm]
    simp only [hcl, hnone]
  have hfs : findStore e s (card :: rest) = none := by
    unfold findStore
    rw [show (card :: rest).take 50 = card :: rest.take 49 from rfl]
    exact haux (rest.take 49)
  have hex : extract_lowest_price e (some fc) (some s) (card :: rest) =
      some ⟨⟨fc.titleText, lp, productUrl e fc.listingId href0⟩, none⟩ := by
    simp only [extract_lowest_price, hfcl, hfp, hfs]
  refine ⟨haux rest, hex, ?_, ?_⟩
  · rw [hex]
    rfl
  · rw [hex]
    rfl

/-- C10 (witness): the matching card's page prices are all invalid; a later
card that would match with a valid price is never reached; the scrape is
`Done` with `'your_store'` absent. -/
theorem store_price_failure_soft_witness :
    findStoreAux "https://www.ebay.co.uk" "mystore"
      [⟨"<li>MyStore offer</li>", some "https://x/bad", "Bad", some "22",
         [['N', '/', 'A']]⟩,
       ⟨"<li>MyStore second</li>", some "https://x/good", "Good", some "33",
         [['£', '7']]⟩] = none ∧
    extract_lowest_price "https://www.ebay.co.uk"
      (some ⟨"<li>first</li>", some "https://x/first", "First", some "11",
        [['£', '9']]⟩)
      (some "mystore")
      [⟨"<li>MyStore offer</li>", some "https://x/bad", "Bad", some "22",
         [['N', '/', 'A']]⟩,
       ⟨"<li>MyStore second</li>", some "https://x/good", "Good", some "33",
         [['£', '7']]⟩] =
      some ⟨⟨"First", ['£', '9'],
        productUrl "https://www.ebay.co.uk" (some "11") "https://x/first"⟩, none⟩ ∧
    scrape true true true (extract_lowest_price "https://www.ebay.co.uk"
      (some ⟨"<li>first</li>", some "https://x/first", "First", some "11",
        [['£', '9']]⟩)
      (some "mystore")
      [⟨"<li>MyStore offer</li>", some "https://x/bad", "Bad", some "22",
         [['N', '/', 'A']]⟩,
       ⟨"<li>MyStore second</li>", some "https://x/good", "Good", some "33",
         [['£', '7']]⟩]) =
      .ok (some ⟨⟨"First", ['£', '9'],
        productUrl "https://www.ebay.co.uk" (some "11") "https://x/first"⟩, none⟩) ∧
    terminalOf (scrape true true true (extract_lowest_price "https://www.ebay.co.uk"
      (some ⟨"<li>first</li>", some "https://x/first", "First", some "11",
        [['£', '9']]⟩)
      (some "mystore")
      [⟨"<li>MyStore offer</li>", some "https://x/bad", "Bad", some "22",
         [['N', '/', 'A']]⟩,
       ⟨"<li>MyStore second</li>", some "https://x/good", "Good", some "33",
         [['£', '7']]⟩])) = .Done :=
  store_price_failure_soft "https://www.ebay.co.uk" "mystore" "https://x/first"
    "https://x/bad" ['£', '9']
    ⟨"<li>first</li>", some "https://x/first", "First", some "11", [['£', '9']]⟩
    ⟨"<li>MyStore offer</li>", some "https://x/bad", "Bad", some "22",
      [['N', '/', 'A']]⟩
    [⟨"<li>MyStore second</li>", some "https://x/good", "Good", some "33",
      [['£', '7']]⟩]
    rfl (by decide) (by decide) rfl (by decide)

end EbayPC
